import Mathlib

/-!
Shallow embedding of `src/program/src/state.rs` of the dex-v4 program:
the market-state and user-account buffer overlays, the in-place order-slot
array (add / read / remove / lookup), and the fee-tier engine.

Machine integers (`u32`, `u64`, `u128`) are modelled as `Nat`; the only
operations the embedded code performs on them are comparisons, copies,
bounded increments/decrements and the fixed-point arithmetic, whose
double-width intermediates are made explicit below.  Rust panics
(slice-index out of bounds, failed `unwrap`) are modelled by `Option`
(`none` = panic) where a claim depends on them; fallible Rust functions
returning `Result` are modelled with `Except`.
-/

namespace DexV4

/-- `DexError` variants used by `state.rs` (from `error.rs`, referenced in src). -/
inductive DexError where
  | InvalidOrderIndex
  | OrderNotFound
  | UserAccountFull
  deriving DecidableEq

/-- The Solana `ProgramError` variants produced by `state.rs`. -/
inductive ProgramError where
  | InvalidAccountData
  | InvalidArgument
  deriving DecidableEq

/-- `AccountTag` enum (`#[repr(u64)]`, discriminants 0..3). -/
inductive AccountTag where
  | Uninitialized
  | DexState
  | UserAccount
  | Closed
  deriving DecidableEq

/-- The `u64` discriminant of an `AccountTag` (`AccountTag::X as u64`). -/
def AccountTag.toU64 : AccountTag → Nat
  | .Uninitialized => 0
  | .DexState => 1
  | .UserAccount => 2
  | .Closed => 3

/-- `MarketFeeType` enum (Borsh discriminants 0, 1). -/
inductive MarketFeeType where
  | Default
  | Stable
  deriving DecidableEq

/-- The `u8` discriminant of a `MarketFeeType` (`MarketFeeType::X as u8`). -/
def MarketFeeType.toU8 : MarketFeeType → Nat
  | .Default => 0
  | .Stable => 1

/-- The `DexState` market-state record.  `Pubkey`s are opaque 32-byte values,
modelled as `Nat`; `creation_timestamp` is an `i64`, modelled as `Int`. -/
structure DexState where
  tag : Nat
  base_mint : Nat
  quote_mint : Nat
  base_vault : Nat
  quote_vault : Nat
  orderbook : Nat
  admin : Nat
  creation_timestamp : Int
  base_volume : Nat
  quote_volume : Nat
  accumulated_fees : Nat
  min_base_order_size : Nat
  royalties_bps : Nat
  accumulated_royalties : Nat
  base_currency_multiplier : Nat
  quote_currency_multiplier : Nat
  signer_nonce : Nat
  fee_type : Nat
  deriving DecidableEq

/-- `DexState::get`: the checked overlay constructor.  `get_unchecked` yields
the typed view of the buffer (here: the parsed record itself); `get` then
refuses the view with `InvalidAccountData` unless `tag` equals
`AccountTag::DexState as u64`. -/
def DexState.get (a : DexState) : Except ProgramError DexState :=
  if a.tag ≠ AccountTag.DexState.toU64 then .error .InvalidAccountData
  else .ok a

/-- One order record: a raw order id and a client-defined alias (both `u128`). -/
structure Order where
  id : Nat
  client_id : Nat
  deriving DecidableEq

/-- `UserAccountHeader`: the fixed 152-byte user-account header. -/
structure UserAccountHeader where
  tag : Nat
  market : Nat
  owner : Nat
  base_token_free : Nat
  base_token_locked : Nat
  quote_token_free : Nat
  quote_token_locked : Nat
  accumulated_rebates : Nat
  accumulated_maker_quote_volume : Nat
  accumulated_maker_base_volume : Nat
  accumulated_taker_quote_volume : Nat
  accumulated_taker_base_volume : Nat
  number_of_orders : Nat
  deriving DecidableEq

/-- `UserAccountHeader::new`: fresh header with `tag = AccountTag::UserAccount`
and every balance, metric and the order count zeroed. -/
def UserAccountHeader.new (market owner : Nat) : UserAccountHeader :=
  { tag := AccountTag.UserAccount.toU64
    market := market
    owner := owner
    base_token_free := 0
    base_token_locked := 0
    quote_token_free := 0
    quote_token_locked := 0
    number_of_orders := 0
    accumulated_rebates := 0
    accumulated_maker_quote_volume := 0
    accumulated_maker_base_volume := 0
    accumulated_taker_quote_volume := 0
    accumulated_taker_base_volume := 0 }

/-- `UserAccount`: header plus the full (capacity-length) order-slot array. -/
structure UserAccount where
  header : UserAccountHeader
  orders : List Order
  deriving DecidableEq

/-- `UserAccount::read_order`: `InvalidOrderIndex` outside the active range,
otherwise the record in slot `order_index` (`self.orders[order_index]`; the
slot exists because `number_of_orders ≤ orders.len()` on every account the
program constructs). -/
def UserAccount.read_order (ua : UserAccount) (order_index : Nat) : Except DexError Order :=
  if order_index ≥ ua.header.number_of_orders then .error .InvalidOrderIndex
  else .ok (ua.orders.getD order_index ⟨0, 0⟩)

/-- `UserAccount::remove_order`: `InvalidOrderIndex` outside the active range;
otherwise, unless `order_index` is the last active slot
(`number_of_orders - order_index != 1`), the last active record is copied
into slot `order_index`; then `number_of_orders` is decremented. -/
def UserAccount.remove_order (ua : UserAccount) (order_index : Nat) :
    Except DexError UserAccount :=
  if order_index ≥ ua.header.number_of_orders then .error .InvalidOrderIndex
  else
    let orders :=
      if ua.header.number_of_orders - order_index ≠ 1 then
        ua.orders.set order_index (ua.orders.getD (ua.header.number_of_orders - 1) ⟨0, 0⟩)
      else ua.orders
    .ok { header := { ua.header with number_of_orders := ua.header.number_of_orders - 1 }
          orders := orders }

/-- `UserAccount::add_order`: `self.orders.get_mut(number_of_orders)` is `None`
exactly when `number_of_orders ≥ orders.len()` (→ `UserAccountFull`);
otherwise the order is written into that slot and the count incremented. -/
def UserAccount.add_order (ua : UserAccount) (order : Order) : Except DexError UserAccount :=
  if ua.header.number_of_orders < ua.orders.length then
    .ok { header := { ua.header with number_of_orders := ua.header.number_of_orders + 1 }
          orders := ua.orders.set ua.header.number_of_orders order }
  else .error .UserAccountFull

/-- Linear scan returning the position of the first element satisfying `p`
(`self.orders.iter().enumerate().find(p)`). -/
def findIdxScan (p : Order → Bool) : List Order → Option Nat
  | [] => none
  | o :: rest => if p o then some 0 else (findIdxScan p rest).map (· + 1)

/-- Linear scan returning the first element satisfying `p`
(`self.orders.iter().find(p)`). -/
def findScan (p : Order → Bool) : List Order → Option Order
  | [] => none
  | o :: rest => if p o then some o else findScan p rest

/-- `UserAccount::find_order_index`: index of the first slot of the whole
`orders` slice whose `id` equals `order_id`, else `OrderNotFound`. -/
def UserAccount.find_order_index (ua : UserAccount) (order_id : Nat) : Except DexError Nat :=
  match findIdxScan (fun b => b.id == order_id) ua.orders with
  | some i => .ok i
  | none => .error .OrderNotFound

/-- `UserAccount::find_order_id_by_client_id`: `id` of the first slot of the
whole `orders` slice whose `client_id` matches, else `OrderNotFound`. -/
def UserAccount.find_order_id_by_client_id (ua : UserAccount) (client_order_id : Nat) :
    Except DexError Nat :=
  match findScan (fun b => b.client_id == client_order_id) ua.orders with
  | some o => .ok o.id
  | none => .error .OrderNotFound

/-! ### Fixed-point helpers and the fee-tier engine -/

/-- Modelled from the spec: `fixed_multiply` (`fp32_mul`) of the fixed-point
arithmetic helper, whose source file (`utils.rs`) is not under `src/`.
Computes `a * b_scaled >> 32` on a double-width intermediate, truncating
toward zero; the value is absent when the result does not fit in a `u64`
(the call sites in `state.rs` `unwrap` this, panicking on absence). -/
def fp32_mul (a b_fp32 : Nat) : Option Nat :=
  let x := a * b_fp32 / 2 ^ 32
  if x < 2 ^ 64 then some x else none

/-- Modelled from the spec: `fixed_divide` (`fp32_div`) of the fixed-point
arithmetic helper, whose source file (`utils.rs`) is not under `src/`.
Computes `(a << 32) / b_scaled`, truncating toward zero; the value is absent
on division by zero or when the quotient does not fit in a `u64`. -/
def fp32_div (a b_fp32 : Nat) : Option Nat :=
  if b_fp32 = 0 then none
  else
    let x := a * 2 ^ 32 / b_fp32
    if x < 2 ^ 64 then some x else none

/-- Modelled from the spec: `FP_32_ONE = 1 << 32`, the 32.32 fixed-point one. -/
def FP_32_ONE : Nat := 1 <<< 32

/-- `FeeTier` enum. -/
inductive FeeTier where
  | Base
  | Srm2
  | Srm3
  | Srm4
  | Srm5
  | Srm6
  | MSrm
  | Stable
  deriving DecidableEq

/-- `FeeTier::from_srm_and_msrm_balances`: the market's `Stable` fee-type
override wins; otherwise the first matching guard of the descending
threshold chain (with `one_srm = 1_000_000`). -/
def FeeTier.from_srm_and_msrm_balances (dex_state : DexState) (srm_held msrm_held : Nat) :
    FeeTier :=
  let one_srm : Nat := 1000000
  if dex_state.fee_type = MarketFeeType.Stable.toU8 then FeeTier.Stable
  else if msrm_held ≥ 1 then FeeTier.MSrm
  else if srm_held ≥ one_srm * 1000000 then FeeTier.Srm6
  else if srm_held ≥ one_srm * 100000 then FeeTier.Srm5
  else if srm_held ≥ one_srm * 10000 then FeeTier.Srm4
  else if srm_held ≥ one_srm * 1000 then FeeTier.Srm3
  else if srm_held ≥ one_srm * 100 then FeeTier.Srm2
  else FeeTier.Base

/-- `FeeTier::taker_rate`: the 32.32 fixed-point taker-rate table. -/
def FeeTier.taker_rate : FeeTier → Nat
  | .Base => (40 <<< 32) / 100000
  | .Srm2 => (39 <<< 32) / 100000
  | .Srm3 => (38 <<< 32) / 100000
  | .Srm4 => (36 <<< 32) / 100000
  | .Srm5 => (34 <<< 32) / 100000
  | .Srm6 => (32 <<< 32) / 100000
  | .MSrm => (30 <<< 32) / 100000
  | .Stable => (10 <<< 32) / 100000

/-- `FeeTier::maker_rate`: currently always zero. -/
def FeeTier.maker_rate (_ : FeeTier) : Nat := 0

/-- `FeeTier::maker_rebate`: currently always zero. -/
def FeeTier.maker_rebate (_ : FeeTier) (_quote_qty : Nat) : Nat := 0

/-- `FeeTier::remove_taker_fee`: `fp32_div(quote_qty, FP_32_ONE + taker_rate)`.
The source `unwrap`s the division's result; `none` models that panic. -/
def FeeTier.remove_taker_fee (t : FeeTier) (quote_qty : Nat) : Option Nat :=
  fp32_div quote_qty (FP_32_ONE + t.taker_rate)

/-- `FeeTier::taker_fee`: `fp32_mul(quote_qty, taker_rate)`.  The source
`unwrap`s the multiplication's result; `none` models that panic. -/
def FeeTier.taker_fee (t : FeeTier) (quote_qty : Nat) : Option Nat :=
  fp32_mul quote_qty t.taker_rate

/-- `FeeTier::referral_rate`: `(taker_rate - Base.maker_rate()).saturating_sub / 5`
(`Nat` subtraction is saturating). -/
def FeeTier.referral_rate (t : FeeTier) : Nat :=
  (t.taker_rate - FeeTier.Base.maker_rate) / 5

/-- `FeeTier::referral_fee`: `fp32_mul(quote_qty, referral_rate)`. -/
def FeeTier.referral_fee (t : FeeTier) (quote_qty : Nat) : Option Nat :=
  fp32_mul quote_qty t.referral_rate

/-! ### Byte-level user-account overlay

`UserAccount::from_buffer(_unchecked)` reinterprets a raw byte buffer:
`split_at_mut(152)` panics when the buffer is shorter than the header,
`try_cast_slice_mut::<Order>` fails (and the source `unwrap`s) when the tail
length is not a multiple of 32.  Both panics are modelled as `none`.
Multi-byte integers are little-endian; an opaque 32-byte `Pubkey` is read as
a little-endian `Nat` as well. -/

/-- `USER_ACCOUNT_HEADER_LEN`. -/
def USER_ACCOUNT_HEADER_LEN : Nat := 152

/-- `Order::LEN`. -/
def ORDER_LEN : Nat := 32

/-- Little-endian value of a list of bytes. -/
def leBytesToNat (l : List Nat) : Nat :=
  l.foldr (fun b acc => b + 256 * acc) 0

/-- The `k` little-endian bytes of `x`. -/
def natToLeBytes (k x : Nat) : List Nat :=
  match k with
  | 0 => []
  | k + 1 => x % 256 :: natToLeBytes k (x / 256)

/-- Decode the 152 header bytes into a `UserAccountHeader`
(`try_from_bytes_mut::<UserAccountHeader>`). -/
def parseHeader (hd : List Nat) : UserAccountHeader :=
  { tag := leBytesToNat (hd.take 8)
    market := leBytesToNat ((hd.drop 8).take 32)
    owner := leBytesToNat ((hd.drop 40).take 32)
    base_token_free := leBytesToNat ((hd.drop 72).take 8)
    base_token_locked := leBytesToNat ((hd.drop 80).take 8)
    quote_token_free := leBytesToNat ((hd.drop 88).take 8)
    quote_token_locked := leBytesToNat ((hd.drop 96).take 8)
    accumulated_rebates := leBytesToNat ((hd.drop 104).take 8)
    accumulated_maker_quote_volume := leBytesToNat ((hd.drop 112).take 8)
    accumulated_maker_base_volume := leBytesToNat ((hd.drop 120).take 8)
    accumulated_taker_quote_volume := leBytesToNat ((hd.drop 128).take 8)
    accumulated_taker_base_volume := leBytesToNat ((hd.drop 136).take 8)
    number_of_orders := leBytesToNat ((hd.drop 148).take 4) }

/-- Encode a `UserAccountHeader` into its 152-byte layout
(tag, market, owner, nine `u64` fields, `u32` padding, `u32` order count). -/
def serializeHeader (h : UserAccountHeader) : List Nat :=
  natToLeBytes 8 h.tag ++ natToLeBytes 32 h.market ++ natToLeBytes 32 h.owner ++
  natToLeBytes 8 h.base_token_free ++ natToLeBytes 8 h.base_token_locked ++
  natToLeBytes 8 h.quote_token_free ++ natToLeBytes 8 h.quote_token_locked ++
  natToLeBytes 8 h.accumulated_rebates ++ natToLeBytes 8 h.accumulated_maker_quote_volume ++
  natToLeBytes 8 h.accumulated_maker_base_volume ++
  natToLeBytes 8 h.accumulated_taker_quote_volume ++
  natToLeBytes 8 h.accumulated_taker_base_volume ++
  natToLeBytes 4 0 ++ natToLeBytes 4 h.number_of_orders

/-- Decode `n` consecutive 32-byte order records
(`try_cast_slice_mut::<Order>` on the tail). -/
def parseOrders : Nat → List Nat → List Order
  | 0, _ => []
  | n + 1, l =>
    ⟨leBytesToNat (l.take 16), leBytesToNat ((l.drop 16).take 16)⟩ :: parseOrders n (l.drop 32)

/-- `UserAccount::from_buffer_unchecked`: split the buffer at the header
length and cast the tail to order records; `none` models the panics on a
too-short buffer or a tail that is not a whole number of records. -/
def from_buffer_unchecked (buf : List Nat) : Option UserAccount :=
  if buf.length < USER_ACCOUNT_HEADER_LEN then none
  else
    let hd := buf.take USER_ACCOUNT_HEADER_LEN
    let tl := buf.drop USER_ACCOUNT_HEADER_LEN
    if tl.length % ORDER_LEN ≠ 0 then none
    else some { header := parseHeader hd, orders := parseOrders (tl.length / ORDER_LEN) tl }

/-- `UserAccount::from_buffer`: the unchecked overlay followed by the tag
check, refusing the buffer with `InvalidAccountData` unless its tag field
equals `AccountTag::UserAccount as u64`. -/
def from_buffer (buf : List Nat) : Option (Except ProgramError UserAccount) :=
  (from_buffer_unchecked buf).map fun user_acc =>
    if user_acc.header.tag ≠ AccountTag.UserAccount.toU64 then .error .InvalidAccountData
    else .ok user_acc

/-- All orders appended in sequence (`add_order` folded over a list),
propagating the first failure. -/
def addMany (ua : UserAccount) : List Order → Except DexError UserAccount
  | [] => .ok ua
  | o :: rest =>
    match ua.add_order o with
    | .ok ua' => addMany ua' rest
    | .error e => .error e

/-- The ids of the active slots `[0, number_of_orders)`. -/
def activeIds (ua : UserAccount) : List Nat :=
  (ua.orders.take ua.header.number_of_orders).map Order.id

/-- A market whose `fee_type` byte is `Stable` (all other fields immaterial). -/
def exampleStableMarket : DexState :=
  ⟨AccountTag.DexState.toU64, 0, 0, 0, 0, 0, 0, 0, 0, 0, 0, 0, 0, 0, 0, 0, 0,
    MarketFeeType.Stable.toU8⟩

/-- A market whose `fee_type` byte is `Default` (all other fields immaterial). -/
def exampleDefaultMarket : DexState :=
  ⟨AccountTag.DexState.toU64, 0, 0, 0, 0, 0, 0, 0, 0, 0, 0, 0, 0, 0, 0, 0, 0,
    MarketFeeType.Default.toU8⟩

/-- A one-order user account used to instantiate the removal theorem. -/
def exampleAccount : UserAccount :=
  ⟨{ UserAccountHeader.new 0 0 with number_of_orders := 1 }, [⟨1, 10⟩]⟩

/-! ### Helper lemmas -/

/-- Default order record used for out-of-range `getD` reads. -/
def zeroOrder : Order := ⟨0, 0⟩

theorem getD_set_self {l : List Order} {i : Nat} (a d : Order) (h : i < l.length) :
    (l.set i a).getD i d = a := by
  rw [List.getD_eq_getElem _ _ (by simpa using h)]
  simp [List.getElem_set]

theorem getD_set_ne {l : List Order} {i j : Nat} (a d : Order) (h : i ≠ j) :
    (l.set i a).getD j d = l.getD j d := by
  simp [List.getD_eq_getElem?_getD, List.getElem?_set_ne h]

theorem getD_mem {l : List Order} {j : Nat} (d : Order) (h : j < l.length) :
    l.getD j d ∈ l := by
  rw [List.getD_eq_getElem _ _ h]
  exact List.getElem_mem h

theorem forall_lt_succ_iff (P : Nat → Prop) (m : Nat) :
    (∀ j, j < m + 1 → P j) ↔ P 0 ∧ ∀ j, j < m → P (j + 1) := by
  constructor
  · intro h
    exact ⟨h 0 (Nat.succ_pos m), fun j hj => h (j + 1) (by omega)⟩
  · rintro ⟨h0, hs⟩ j hj
    cases j with
    | zero => exact h0
    | succ j => exact hs j (by omega)

theorem findIdxScan_eq_some_iff (p : Order → Bool) (l : List Order) (k : Nat) :
    findIdxScan p l = some k ↔
      k < l.length ∧ p (l.getD k zeroOrder) = true ∧
        ∀ j, j < k → p (l.getD j zeroOrder) = false := by
  induction l generalizing k with
  | nil => simp [findIdxScan]
  | cons o rest ih =>
    by_cases hp : p o
    · cases k with
      | zero => simp [findIdxScan, hp, zeroOrder]
      | succ m =>
        simp only [findIdxScan, if_pos hp, List.length_cons, List.getD_cons_succ]
        rw [forall_lt_succ_iff]
        simp [hp, List.getD_cons_zero]
    · cases k with
      | zero =>
        simp only [findIdxScan, if_neg hp]
        constructor
        · intro h
          rcases Option.map_eq_some'.1 h with ⟨a, -, ha⟩
          exact absurd ha (by omega)
        · rintro ⟨-, h2, -⟩
          rw [List.getD_cons_zero] at h2
          exact absurd h2 (by simp [hp])
      | succ m =>
        simp only [findIdxScan, if_neg hp, List.length_cons, List.getD_cons_succ]
        rw [forall_lt_succ_iff]
        constructor
        · intro h
          rcases Option.map_eq_some'.1 h with ⟨a, ha, hak⟩
          have ham : a = m := by omega
          rcases (ih a).1 ha with ⟨h1, h2, h3⟩
          subst ham
          exact ⟨by omega, h2, by simpa [List.getD_cons_zero] using hp, h3⟩
        · rintro ⟨h1, h2, h0, h3⟩
          exact Option.map_eq_some'.2 ⟨m, (ih m).2 ⟨by omega, h2, h3⟩, rfl⟩

theorem findIdxScan_eq_none_iff (p : Order → Bool) (l : List Order) :
    findIdxScan p l = none ↔ ∀ o ∈ l, p o = false := by
  induction l with
  | nil => simp [findIdxScan]
  | cons o rest ih =>
    by_cases hp : p o
    · simp [findIdxScan, hp]
    · simp [findIdxScan, hp, Option.map_eq_none', ih]

theorem findScan_eq_map (p : Order → Bool) (l : List Order) :
    findScan p l = (findIdxScan p l).map (fun k => l.getD k zeroOrder) := by
  induction l with
  | nil => rfl
  | cons o rest ih =>
    by_cases hp : p o
    · simp [findScan, findIdxScan, hp, List.getD_cons_zero, zeroOrder]
    · simp only [findScan, findIdxScan, if_neg hp, ih, Option.map_map]
      rcases findIdxScan p rest with _ | k
      · rfl
      · simp [List.getD_cons_succ]

/-- `find_order_index` characterised: `ok k` is returned exactly for the first
slot of the whole array whose `id` matches. -/
theorem find_order_index_eq_ok_iff (ua : UserAccount) (x k : Nat) :
    ua.find_order_index x = .ok k ↔
      k < ua.orders.length ∧ (ua.orders.getD k zeroOrder).id = x ∧
        ∀ j, j < k → (ua.orders.getD j zeroOrder).id ≠ x := by
  unfold UserAccount.find_order_index
  rcases h : findIdxScan (fun b => b.id == x) ua.orders with _ | i
  · rw [findIdxScan_eq_none_iff] at h
    simp only
    constructor
    · intro hc
      exact absurd hc (by simp)
    · rintro ⟨h1, h2, -⟩
      have hne : (ua.orders.getD k zeroOrder).id ≠ x := by
        simpa only [beq_eq_false_iff_ne] using h _ (getD_mem zeroOrder h1)
      exact absurd h2 hne
  · rw [findIdxScan_eq_some_iff] at h
    simp only [beq_iff_eq] at h
    rcases h with ⟨h1, h2, h3⟩
    simp only [Except.ok.injEq]
    constructor
    · rintro rfl
      exact ⟨h1, h2, fun j hj => by simpa using h3 j hj⟩
    · rintro ⟨h1', h2', h3'⟩
      rcases Nat.lt_trichotomy i k with hik | hik | hik
      · exact absurd h2 (h3' i hik)
      · exact hik
      · exact absurd h2' (by simpa using h3 k hik)

/-- `find_order_index` fails exactly when no slot of the whole array matches,
and the failure is always `OrderNotFound`. -/
theorem find_order_index_eq_error_iff (ua : UserAccount) (x : Nat) (e : DexError) :
    ua.find_order_index x = .error e ↔
      e = .OrderNotFound ∧ ∀ o ∈ ua.orders, o.id ≠ x := by
  unfold UserAccount.find_order_index
  rcases h : findIdxScan (fun b => b.id == x) ua.orders with _ | i
  · rw [findIdxScan_eq_none_iff] at h
    simp only [Except.error.injEq]
    constructor
    · rintro rfl
      exact ⟨rfl, fun o ho => by simpa only [beq_eq_false_iff_ne] using h o ho⟩
    · rintro ⟨rfl, -⟩
      rfl
  · rw [findIdxScan_eq_some_iff] at h
    rcases h with ⟨h1, h2, -⟩
    simp only [beq_iff_eq] at h2
    simp only
    constructor
    · intro hc
      exact absurd hc (by simp)
    · rintro ⟨-, hall⟩
      exact absurd h2 (hall _ (getD_mem zeroOrder h1))

/-- `find_order_id_by_client_id` characterised: `ok r` is returned exactly
when the first slot of the whole array whose `client_id` matches has id `r`. -/
theorem find_order_id_by_client_id_eq_ok_iff (ua : UserAccount) (c r : Nat) :
    ua.find_order_id_by_client_id c = .ok r ↔
      ∃ k, k < ua.orders.length ∧ (ua.orders.getD k zeroOrder).client_id = c ∧
        (ua.orders.getD k zeroOrder).id = r ∧
        ∀ j, j < k → (ua.orders.getD j zeroOrder).client_id ≠ c := by
  unfold UserAccount.find_order_id_by_client_id
  rw [findScan_eq_map]
  rcases h : findIdxScan (fun b => b.client_id == c) ua.orders with _ | i
  · rw [findIdxScan_eq_none_iff] at h
    simp only [Option.map_none']
    constructor
    · intro hc
      exact absurd hc (by simp)
    · rintro ⟨k, h1, h2, -⟩
      have hne : (ua.orders.getD k zeroOrder).client_id ≠ c := by
        simpa only [beq_eq_false_iff_ne] using h _ (getD_mem zeroOrder h1)
      exact absurd h2 hne
  · rw [findIdxScan_eq_some_iff] at h
    simp only [beq_iff_eq] at h
    rcases h with ⟨h1, h2, h3⟩
    simp only [Option.map_some', Except.ok.injEq]
    constructor
    · rintro rfl
      exact ⟨i, h1, h2, rfl, fun j hj => by simpa using h3 j hj⟩
    · rintro ⟨k, hk1, hk2, hk3, hk4⟩
      have hik : i = k := by
        rcases Nat.lt_trichotomy i k with hik | hik | hik
        · exact absurd h2 (hk4 i hik)
        · exact hik
        · exact absurd hk2 (by simpa using h3 k hik)
      subst hik
      exact hk3

/-- `find_order_id_by_client_id` fails exactly when no slot of the whole
array matches, and the failure is always `OrderNotFound`. -/
theorem find_order_id_by_client_id_eq_error_iff (ua : UserAccount) (c : Nat) (e : DexError) :
    ua.find_order_id_by_client_id c = .error e ↔
      e = .OrderNotFound ∧ ∀ o ∈ ua.orders, o.client_id ≠ c := by
  unfold UserAccount.find_order_id_by_client_id
  rw [findScan_eq_map]
  rcases h : findIdxScan (fun b => b.client_id == c) ua.orders with _ | i
  · rw [findIdxScan_eq_none_iff] at h
    simp only [Option.map_none', Except.error.injEq]
    constructor
    · rintro rfl
      exact ⟨rfl, fun o ho => by simpa only [beq_eq_false_iff_ne] using h o ho⟩
    · rintro ⟨rfl, -⟩
      rfl
  · rw [findIdxScan_eq_some_iff] at h
    rcases h with ⟨h1, h2, -⟩
    simp only [beq_iff_eq] at h2
    simp only [Option.map_some']
    constructor
    · intro hc
      exact absurd hc (by simp)
    · rintro ⟨-, hall⟩
      exact absurd h2 (hall _ (getD_mem zeroOrder h1))

/-! ### Further helper lemmas -/

set_option maxRecDepth 4000

/-- Distinct active ids, index form: derived from `Nodup (activeIds ua)`. -/
theorem activeIds_nodup_getD {ua : UserAccount}
    (hcap : ua.header.number_of_orders ≤ ua.orders.length)
    (h : (activeIds ua).Nodup) :
    ∀ j k, j < k → k < ua.header.number_of_orders →
      (ua.orders.getD j zeroOrder).id ≠ (ua.orders.getD k zeroOrder).id := by
  intro j k hjk hk
  have hj : j < ua.header.number_of_orders := lt_trans hjk hk
  have hlen : (activeIds ua).length = ua.header.number_of_orders := by
    simp [activeIds]
    omega
  have hne := List.pairwise_iff_getElem.1 h j k (by omega) (by omega) hjk
  have hgj : (activeIds ua).get ⟨j, by omega⟩ = (ua.orders.getD j zeroOrder).id := by
    rw [List.getD_eq_getElem _ _ (show j < ua.orders.length by omega)]
    simp [activeIds]
  have hgk : (activeIds ua).get ⟨k, by omega⟩ = (ua.orders.getD k zeroOrder).id := by
    rw [List.getD_eq_getElem _ _ (show k < ua.orders.length by omega)]
    simp [activeIds]
  rw [List.get_eq_getElem] at hgj hgk
  rw [hgj, hgk] at hne
  exact hne

/-- The explicit result of a successful `add_order`. -/
theorem add_order_ok {ua : UserAccount} (o : Order)
    (h : ua.header.number_of_orders < ua.orders.length) :
    ua.add_order o = .ok ⟨{ ua.header with number_of_orders := ua.header.number_of_orders + 1 },
      ua.orders.set ua.header.number_of_orders o⟩ := by
  unfold UserAccount.add_order
  rw [if_pos h]

/-- `add_order` fails exactly on a full account. -/
theorem add_order_full {ua : UserAccount} (o : Order)
    (h : ua.orders.length ≤ ua.header.number_of_orders) :
    ua.add_order o = .error .UserAccountFull := by
  unfold UserAccount.add_order
  rw [if_neg (by omega)]

/-- The explicit result of a successful `remove_order`. -/
theorem remove_order_ok {ua : UserAccount} {i : Nat} (h : i < ua.header.number_of_orders) :
    ua.remove_order i =
      .ok ⟨{ ua.header with number_of_orders := ua.header.number_of_orders - 1 },
        if ua.header.number_of_orders - i ≠ 1 then
          ua.orders.set i (ua.orders.getD (ua.header.number_of_orders - 1) zeroOrder)
        else ua.orders⟩ := by
  unfold UserAccount.remove_order
  rw [if_neg (by omega)]
  rfl

/-- Appending a full list of orders to an account with enough room. -/
theorem addMany_ok (os : List Order) :
    ∀ ua : UserAccount, ua.header.number_of_orders + os.length ≤ ua.orders.length →
      ∃ ua', addMany ua os = .ok ua' ∧
        ua'.header.number_of_orders = ua.header.number_of_orders + os.length ∧
        ua'.orders.length = ua.orders.length := by
  induction os with
  | nil => exact fun ua _ => ⟨ua, rfl, by simp, rfl⟩
  | cons o rest ih =>
    intro ua h
    have hn : ua.header.number_of_orders < ua.orders.length := by
      simp only [List.length_cons] at h
      omega
    rcases ih ⟨{ ua.header with number_of_orders := ua.header.number_of_orders + 1 },
        ua.orders.set ua.header.number_of_orders o⟩
        (by simpa using by simp only [List.length_cons] at h; omega) with ⟨ua', h1, h2, h3⟩
    refine ⟨ua', ?_, ?_, ?_⟩
    · unfold addMany
      rw [add_order_ok o hn]
      exact h1
    · simp only [List.length_cons]
      simp only at h2
      omega
    · simpa using h3

/-- The pre-fee notional always fits: `q·2³² / (2³² + r) ≤ q`. -/
theorem div_one_plus_rate_le (q r : Nat) : q * 2 ^ 32 / (2 ^ 32 + r) ≤ q :=
  calc q * 2 ^ 32 / (2 ^ 32 + r) ≤ q * 2 ^ 32 / 2 ^ 32 :=
        Nat.div_le_div_left (Nat.le_add_right _ _) (by norm_num)
    _ = q := Nat.mul_div_cancel q (by norm_num)

/-- Truncation analysis of fee removal followed by fee addition: the
reconstruction undershoots `q` by at most 2. -/
theorem fp32_round_trip_bounds (r q : Nat) (hr : r < 2 ^ 32) :
    q * 2 ^ 32 / (2 ^ 32 + r) + q * 2 ^ 32 / (2 ^ 32 + r) * r / 2 ^ 32 ≤ q ∧
      q ≤ q * 2 ^ 32 / (2 ^ 32 + r) + q * 2 ^ 32 / (2 ^ 32 + r) * r / 2 ^ 32 + 2 := by
  have hS : (0 : Nat) < 2 ^ 32 := by norm_num
  have hD : (0 : Nat) < 2 ^ 32 + r := by omega
  have key : ∀ p : Nat, p * (2 ^ 32 + r) / 2 ^ 32 = p + p * r / 2 ^ 32 := by
    intro p
    have h : p * (2 ^ 32 + r) = 2 ^ 32 * p + p * r := by ring
    rw [h, Nat.mul_add_div hS]
  have hmod := Nat.div_add_mod (q * 2 ^ 32) (2 ^ 32 + r)
  have hmlt : q * 2 ^ 32 % (2 ^ 32 + r) < 2 ^ 32 + r := Nat.mod_lt _ hD
  constructor
  · have h1 : q * 2 ^ 32 / (2 ^ 32 + r) * (2 ^ 32 + r) ≤ q * 2 ^ 32 :=
      Nat.div_mul_le_self _ _
    have h2 : q * 2 ^ 32 / (2 ^ 32 + r) * (2 ^ 32 + r) / 2 ^ 32 ≤ q * 2 ^ 32 / 2 ^ 32 :=
      Nat.div_le_div_right h1
    rw [key, Nat.mul_div_cancel q hS] at h2
    exact h2
  · have h3 : (q - 2) * 2 ^ 32 ≤ q * 2 ^ 32 / (2 ^ 32 + r) * (2 ^ 32 + r) := by
      have hx : (2 ^ 32 + r) * (q * 2 ^ 32 / (2 ^ 32 + r)) =
          q * 2 ^ 32 / (2 ^ 32 + r) * (2 ^ 32 + r) := Nat.mul_comm _ _
      rw [hx] at hmod
      omega
    have h4 : q - 2 ≤ q * 2 ^ 32 / (2 ^ 32 + r) * (2 ^ 32 + r) / 2 ^ 32 :=
      (Nat.le_div_iff_mul_le hS).2 h3
    rw [key] at h4
    omega

/-- `remove_taker_fee` in closed form: the division is always defined. -/
theorem remove_taker_fee_eq (t : FeeTier) (q : Nat) (hq : q < 2 ^ 64) :
    t.remove_taker_fee q = some (q * 2 ^ 32 / (2 ^ 32 + t.taker_rate)) := by
  unfold FeeTier.remove_taker_fee fp32_div
  have hone : FP_32_ONE = 2 ^ 32 := by decide
  rw [hone]
  rw [if_neg (by omega)]
  rw [if_pos (by have := div_one_plus_rate_le q t.taker_rate; omega)]

/-- `taker_fee` in closed form for `u64` quantities. -/
theorem taker_fee_eq (t : FeeTier) (q : Nat) (hq : q < 2 ^ 64) :
    t.taker_fee q = some (q * t.taker_rate / 2 ^ 32) := by
  unfold FeeTier.taker_fee fp32_mul
  have hr : t.taker_rate < 2 ^ 32 := by cases t <;> decide
  have hle : q * t.taker_rate / 2 ^ 32 ≤ q :=
    calc q * t.taker_rate / 2 ^ 32 ≤ q * 2 ^ 32 / 2 ^ 32 :=
          Nat.div_le_div_right (Nat.mul_le_mul_left q (le_of_lt hr))
      _ = q := Nat.mul_div_cancel q (by norm_num)
  rw [if_pos (by omega)]

/-- `read_order` on an in-range index, in closed form. -/
theorem read_order_eq {ua : UserAccount} {i : Nat} (h : i < ua.header.number_of_orders) :
    ua.read_order i = .ok (ua.orders.getD i zeroOrder) := by
  unfold UserAccount.read_order
  rw [if_neg (by omega)]
  rfl

/-! ### Claim theorems -/

/-- C1, counterexample: on an account whose active range is empty
(`number_of_orders = 0`) but whose slot 0 holds a stale record with id 5 and
client id 7, both lookups succeed instead of failing with `OrderNotFound`:
the scans cover the whole slot array, not only the active range. -/
theorem find_lookup_scans_inactive_slot :
    (⟨UserAccountHeader.new 0 0, [⟨5, 7⟩]⟩ : UserAccount).header.number_of_orders = 0 ∧
    UserAccount.find_order_index ⟨UserAccountHeader.new 0 0, [⟨5, 7⟩]⟩ 5 = .ok 0 ∧
    UserAccount.find_order_id_by_client_id ⟨UserAccountHeader.new 0 0, [⟨5, 7⟩]⟩ 7 = .ok 5 :=
  ⟨rfl, rfl, rfl⟩

/-- C1 (amended): `find_order_index(order_id)` linearly scans the ENTIRE slot
array, not only the active range `[0, number_of_orders)`: it returns the index
of the first slot (active or not) whose order id matches, and fails with
`OrderNotFound` exactly when no slot of the whole array matches; likewise
`find_order_id_by_client_id(client_id)` returns the id stored in the first
slot of the whole array whose `client_id` matches and fails with
`OrderNotFound` exactly when no slot of the whole array matches. -/
theorem find_lookup_first_match_whole_array :
    (∀ (ua : UserAccount) (order_id k : Nat),
      ua.find_order_index order_id = .ok k ↔
        k < ua.orders.length ∧ (ua.orders.getD k zeroOrder).id = order_id ∧
          ∀ j, j < k → (ua.orders.getD j zeroOrder).id ≠ order_id) ∧
    (∀ (ua : UserAccount) (order_id : Nat) (e : DexError),
      ua.find_order_index order_id = .error e ↔
        e = .OrderNotFound ∧ ∀ o ∈ ua.orders, o.id ≠ order_id) ∧
    (∀ (ua : UserAccount) (client_id r : Nat),
      ua.find_order_id_by_client_id client_id = .ok r ↔
        ∃ k, k < ua.orders.length ∧ (ua.orders.getD k zeroOrder).client_id = client_id ∧
          (ua.orders.getD k zeroOrder).id = r ∧
          ∀ j, j < k → (ua.orders.getD j zeroOrder).client_id ≠ client_id) ∧
    (∀ (ua : UserAccount) (client_id : Nat) (e : DexError),
      ua.find_order_id_by_client_id client_id = .error e ↔
        e = .OrderNotFound ∧ ∀ o ∈ ua.orders, o.client_id ≠ client_id) :=
  ⟨find_order_index_eq_ok_iff, find_order_index_eq_error_iff,
    find_order_id_by_client_id_eq_ok_iff, find_order_id_by_client_id_eq_error_iff⟩

/-- C3: `add_order` fails with `UserAccountFull` exactly when
`number_of_orders` equals the capacity `orders.len()` (the pure model keeps
the account unchanged on failure by construction); otherwise it writes the
order into slot `number_of_orders`, increments the count, and leaves every
previously active slot readable unchanged.  Starting from an empty account,
adding one order per slot succeeds and any further `add_order` fails with
`UserAccountFull` while `number_of_orders` stays at the capacity. -/
theorem add_order_capacity_spec :
    (∀ (ua : UserAccount) (o : Order),
      ua.header.number_of_orders ≤ ua.orders.length →
      (ua.add_order o = .error .UserAccountFull ↔
        ua.header.number_of_orders = ua.orders.length)) ∧
    (∀ (ua : UserAccount) (o : Order),
      ua.header.number_of_orders < ua.orders.length →
      ∃ ua', ua.add_order o = .ok ua' ∧
        ua'.header.number_of_orders = ua.header.number_of_orders + 1 ∧
        ua'.read_order ua.header.number_of_orders = .ok o ∧
        ∀ j, j < ua.header.number_of_orders → ua'.read_order j = ua.read_order j) ∧
    (∀ (ua : UserAccount) (os : List Order),
      ua.header.number_of_orders = 0 → os.length = ua.orders.length →
      ∃ ua', addMany ua os = .ok ua' ∧
        ua'.header.number_of_orders = ua.orders.length ∧
        ∀ o, ua'.add_order o = .error .UserAccountFull) := by
  refine ⟨?_, ?_, ?_⟩
  · intro ua o hle
    constructor
    · intro h
      by_contra hne
      rw [add_order_ok o (by omega)] at h
      exact Except.noConfusion h
    · intro h
      exact add_order_full o (by omega)
  · intro ua o hlt
    refine ⟨_, add_order_ok o hlt, rfl, ?_, ?_⟩
    · rw [read_order_eq (show ua.header.number_of_orders < ua.header.number_of_orders + 1
        by omega)]
      rw [getD_set_self o zeroOrder hlt]
    · intro j hj
      rw [read_order_eq (show j < ua.header.number_of_orders + 1 by omega),
        read_order_eq (show j < ua.header.number_of_orders from hj)]
      rw [getD_set_ne o zeroOrder (by omega)]
  · intro ua os h0 hlen
    rcases addMany_ok os ua (by omega) with ⟨ua', h1, h2, h3⟩
    exact ⟨ua', h1, by omega, fun o => add_order_full o (by omega)⟩

/-- C3, witness: a capacity-1 account accepts one order and is then full. -/
theorem add_order_capacity_spec_witness :
    ∃ ua', addMany ⟨UserAccountHeader.new 0 0, [⟨0, 0⟩]⟩ [⟨1, 2⟩] = .ok ua' ∧
      ua'.header.number_of_orders = 1 ∧
      ∀ o, ua'.add_order o = .error .UserAccountFull :=
  add_order_capacity_spec.2.2 ⟨UserAccountHeader.new 0 0, [⟨0, 0⟩]⟩ [⟨1, 2⟩] rfl rfl

/-- C4, counterexample: with the truncating 32.32 fixed-point multiply,
`taker_fee(Stable, 1_000_000)` is 99 (not 100) and
`taker_fee(Srm5, 1_000_000)` is 339 (not 340). -/
theorem fee_scenarios_counterexample :
    FeeTier.taker_fee .Stable 1000000 = some 99 ∧
    FeeTier.taker_fee .Stable 1000000 ≠ some 100 ∧
    FeeTier.taker_fee .Srm5 1000000 = some 339 ∧
    FeeTier.taker_fee .Srm5 1000000 ≠ some 340 := by
  refine ⟨rfl, ?_, rfl, ?_⟩ <;> decide

/-- C4 (amended): when the market's fee type is `Stable`,
`from_srm_and_msrm_balances` returns `Stable` for all balances, and
`taker_fee(Stable, 1_000_000) = 99`; with `srm_held = 150_000_000_000`,
`msrm_held = 0` and fee type `Default` the tier is `Srm5` and
`taker_fee(Srm5, 1_000_000) = 339` (the rate table truncates `10/100_000`
and `34/100_000` to 32.32 fixed point, and the fee multiply truncates again
toward zero, so the spec's rounded figures 100 and 340 are each one short). -/
theorem fee_scenarios_amended :
    (∀ (d : DexState) (srm_held msrm_held : Nat),
      d.fee_type = MarketFeeType.Stable.toU8 →
      FeeTier.from_srm_and_msrm_balances d srm_held msrm_held = .Stable) ∧
    FeeTier.taker_fee .Stable 1000000 = some 99 ∧
    (∀ d : DexState, d.fee_type = MarketFeeType.Default.toU8 →
      FeeTier.from_srm_and_msrm_balances d 150000000000 0 = .Srm5) ∧
    FeeTier.taker_fee .Srm5 1000000 = some 339 := by
  refine ⟨?_, rfl, ?_, rfl⟩
  · intro d srm msrm h
    unfold FeeTier.from_srm_and_msrm_balances
    rw [if_pos h]
  · intro d h
    unfold FeeTier.from_srm_and_msrm_balances
    rw [h]
    decide

/-- C4, witness: the two scenarios at concrete markets. -/
theorem fee_scenarios_amended_witness :
    FeeTier.from_srm_and_msrm_balances exampleStableMarket 123 456 = .Stable ∧
    FeeTier.from_srm_and_msrm_balances exampleDefaultMarket 150000000000 0 = .Srm5 :=
  ⟨fee_scenarios_amended.1 exampleStableMarket 123 456 rfl,
    fee_scenarios_amended.2.2.1 exampleDefaultMarket rfl⟩

/-- C5: for every tier and every `u64` quote quantity the fixed-point divide
inside `remove_taker_fee` is defined (the divisor `FP_32_ONE + taker_rate` is
never zero and the quotient always fits a `u64`), so the absent-result case
never reaches the caller and the function never panics. -/
theorem remove_taker_fee_never_panics (t : FeeTier) (q : Nat) (hq : q < 2 ^ 64) :
    ∃ v, t.remove_taker_fee q = some v :=
  ⟨_, remove_taker_fee_eq t q hq⟩

/-- C5, witness. -/
theorem remove_taker_fee_never_panics_witness :
    ∃ v, FeeTier.remove_taker_fee .Base 1000000 = some v :=
  remove_taker_fee_never_panics .Base 1000000 (by decide)

/-- C6: `from_srm_and_msrm_balances` equals the spec's decision chain: the
`Stable` market override wins; otherwise `MSrm` for any positive MSRM
balance, else the SRM thresholds 10¹², 10¹¹, 10¹⁰, 10⁹, 10⁸ select
Srm6..Srm2 in descending order, else `Base`. -/
theorem fee_tier_thresholds (d : DexState) (srm_held msrm_held : Nat) :
    FeeTier.from_srm_and_msrm_balances d srm_held msrm_held =
      if d.fee_type = MarketFeeType.Stable.toU8 then .Stable
      else if msrm_held ≥ 1 then .MSrm
      else if srm_held ≥ 1000000000000 then .Srm6
      else if srm_held ≥ 100000000000 then .Srm5
      else if srm_held ≥ 10000000000 then .Srm4
      else if srm_held ≥ 1000000000 then .Srm3
      else if srm_held ≥ 100000000 then .Srm2
      else .Base := by
  unfold FeeTier.from_srm_and_msrm_balances
  norm_num

/-- C7, counterexample: at tier `Base` and `q = 2502`, fee removal gives
`p = 2500` whose taker fee is `0`, so the reconstruction `p + fee = 2500`
undershoots `q` by 2, violating the claimed bound of at most 1. -/
theorem round_trip_error_two :
    FeeTier.remove_taker_fee .Base 2502 = some 2500 ∧
    FeeTier.taker_fee .Base 2500 = some 0 ∧
    2502 - (2500 + 0) = 2 ∧ ¬(2502 - (2500 + 0) ≤ 1) := by
  refine ⟨rfl, rfl, rfl, ?_⟩
  decide

/-- C7 (amended): for every tier and `u64` quote quantity `q`,
`remove_taker_fee` and the subsequent `taker_fee` are defined, the
reconstruction `p + taker_fee(tier, p)` never exceeds `q`, and it undershoots
`q` by at most 2 base units (truncation of the division and of the
multiplication can each lose up to one unit). -/
theorem round_trip_within_two (t : FeeTier) (q : Nat) (hq : q < 2 ^ 64) :
    ∃ p fee, t.remove_taker_fee q = some p ∧ t.taker_fee p = some fee ∧
      p + fee ≤ q ∧ q ≤ p + fee + 2 := by
  have hr : t.taker_rate < 2 ^ 32 := by cases t <;> decide
  have hp := remove_taker_fee_eq t q hq
  have hplt : q * 2 ^ 32 / (2 ^ 32 + t.taker_rate) < 2 ^ 64 :=
    lt_of_le_of_lt (div_one_plus_rate_le q _) hq
  have hf := taker_fee_eq t (q * 2 ^ 32 / (2 ^ 32 + t.taker_rate)) hplt
  rcases fp32_round_trip_bounds t.taker_rate q hr with ⟨hb1, hb2⟩
  exact ⟨_, _, hp, hf, hb1, hb2⟩

/-- C7, witness. -/
theorem round_trip_within_two_witness :
    ∃ p fee, FeeTier.remove_taker_fee .Base 1000000 = some p ∧
      FeeTier.taker_fee .Base p = some fee ∧
      p + fee ≤ 1000000 ∧ 1000000 ≤ p + fee + 2 :=
  round_trip_within_two .Base 1000000 (by decide)

/-- C8: after a successful `add_order(o)` on an account none of whose slots
already holds an order with id `o.id`, `find_order_index(o.id)` succeeds and
`read_order` at the returned index yields `o`. -/
theorem add_then_find_roundtrip (ua : UserAccount) (o : Order) (ua' : UserAccount)
    (hadd : ua.add_order o = .ok ua') (hfresh : ∀ b ∈ ua.orders, b.id ≠ o.id) :
    ∃ i, ua'.find_order_index o.id = .ok i ∧ ua'.read_order i = .ok o := by
  unfold UserAccount.add_order at hadd
  by_cases hlt : ua.header.number_of_orders < ua.orders.length
  · rw [if_pos hlt] at hadd
    injection hadd with hadd
    subst hadd
    refine ⟨ua.header.number_of_orders,
      (find_order_index_eq_ok_iff _ _ _).2 ⟨?_, ?_, ?_⟩, ?_⟩
    · simpa using hlt
    · rw [getD_set_self o zeroOrder hlt]
    · intro j hj
      rw [getD_set_ne o zeroOrder (by omega)]
      exact hfresh _ (getD_mem zeroOrder (by omega))
    · rw [read_order_eq (show ua.header.number_of_orders < ua.header.number_of_orders + 1
        by omega)]
      rw [getD_set_self o zeroOrder hlt]
  · rw [if_neg hlt] at hadd
    exact Except.noConfusion hadd

/-- C2, counterexample: on an account with one active order (id 5), removing
index 0 succeeds and decrements the count to 0, but the removed record stays
behind in the (now inactive) slot 0, so `find_order_index 5` still returns
`ok 0` instead of failing with `OrderNotFound`. -/
theorem removed_id_still_found :
    UserAccount.remove_order ⟨{ UserAccountHeader.new 0 0 with number_of_orders := 1 },
        [⟨5, 7⟩]⟩ 0 =
      .ok ⟨UserAccountHeader.new 0 0, [⟨5, 7⟩]⟩ ∧
    UserAccount.find_order_index ⟨UserAccountHeader.new 0 0, [⟨5, 7⟩]⟩ 5 = .ok 0 :=
  ⟨rfl, rfl⟩

/-- C2 (amended): on an account with distinct active order ids and
`i < number_of_orders`, `remove_order(i)` succeeds, decrements
`number_of_orders` by exactly 1, copies the former last active record into
slot `i` when `i` was not the last active slot (and moves nothing
otherwise), and leaves every other active order retrievable by its id at an
active index holding its record; however, since the lookups scan the whole
array, `find_order_index` on the removed id afterwards either fails with
`OrderNotFound` or returns a stale index at or beyond the new
`number_of_orders` — it does not always fail.  For `i ≥ number_of_orders`,
`remove_order(i)` fails with `InvalidOrderIndex` (the pure model leaves the
account unchanged by construction). -/
theorem remove_order_spec (ua : UserAccount) (i : Nat)
    (hcap : ua.header.number_of_orders ≤ ua.orders.length)
    (hnodup : (activeIds ua).Nodup) :
    (ua.header.number_of_orders ≤ i → ua.remove_order i = .error .InvalidOrderIndex) ∧
    (i < ua.header.number_of_orders →
      ∃ ua', ua.remove_order i = .ok ua' ∧
        ua'.header.number_of_orders = ua.header.number_of_orders - 1 ∧
        (i + 1 ≠ ua.header.number_of_orders →
          ua'.orders = ua.orders.set i
            (ua.orders.getD (ua.header.number_of_orders - 1) zeroOrder)) ∧
        (i + 1 = ua.header.number_of_orders → ua'.orders = ua.orders) ∧
        (∀ j, j < ua.header.number_of_orders → j ≠ i →
          ∃ k, k < ua.header.number_of_orders - 1 ∧
            ua'.find_order_index (ua.orders.getD j zeroOrder).id = .ok k ∧
            ua'.read_order k = .ok (ua.orders.getD j zeroOrder)) ∧
        (ua'.find_order_index (ua.orders.getD i zeroOrder).id = .error .OrderNotFound ∨
          ∃ k, ua'.find_order_index (ua.orders.getD i zeroOrder).id = .ok k ∧
            ua.header.number_of_orders - 1 ≤ k)) := by
  have hdist := activeIds_nodup_getD hcap hnodup
  refine ⟨fun h => ?_, fun hi => ?_⟩
  · unfold UserAccount.remove_order
    rw [if_pos h]
  · by_cases hlast : i + 1 = ua.header.number_of_orders
    · have hrem : ua.remove_order i =
          .ok ⟨{ ua.header with number_of_orders := ua.header.number_of_orders - 1 },
            ua.orders⟩ := by
        unfold UserAccount.remove_order
        rw [if_neg (by omega)]
        rw [if_neg (by omega)]
      refine ⟨_, hrem, rfl, fun hc => absurd hlast hc, fun _ => rfl, ?_, ?_⟩
      · intro j hj hji
        have hjlt : j < ua.header.number_of_orders - 1 := by omega
        refine ⟨j, hjlt, ?_, ?_⟩
        · exact (find_order_index_eq_ok_iff _ _ _).2
            ⟨show j < ua.orders.length by omega, rfl,
              fun m hm => hdist m j hm (by omega)⟩
        · exact read_order_eq hjlt
      · refine .inr ⟨i, ?_, by omega⟩
        exact (find_order_index_eq_ok_iff _ _ _).2
          ⟨show i < ua.orders.length by omega, rfl, fun m hm => hdist m i hm hi⟩
    · have hilast : i < ua.header.number_of_orders - 1 := by omega
      have hrem : ua.remove_order i =
          .ok ⟨{ ua.header with number_of_orders := ua.header.number_of_orders - 1 },
            ua.orders.set i
              (ua.orders.getD (ua.header.number_of_orders - 1) zeroOrder)⟩ := by
        unfold UserAccount.remove_order
        rw [if_neg (by omega)]
        rw [if_pos (by omega)]
        rfl
      refine ⟨_, hrem, rfl, fun _ => rfl, fun hc => absurd hc hlast, ?_, ?_⟩
      · intro j hj hji
        by_cases hjn : j = ua.header.number_of_orders - 1
        · subst hjn
          refine ⟨i, hilast, ?_, ?_⟩
          · refine (find_order_index_eq_ok_iff _ _ _).2 ⟨?_, ?_, ?_⟩
            · show i < (ua.orders.set i
                (ua.orders.getD (ua.header.number_of_orders - 1) zeroOrder)).length
              simp only [List.length_set]
              omega
            · show ((ua.orders.set i
                  (ua.orders.getD (ua.header.number_of_orders - 1) zeroOrder)).getD i
                    zeroOrder).id =
                (ua.orders.getD (ua.header.number_of_orders - 1) zeroOrder).id
              rw [getD_set_self _ zeroOrder (by omega)]
            · intro m hm
              show ¬((ua.orders.set i
                  (ua.orders.getD (ua.header.number_of_orders - 1) zeroOrder)).getD m
                    zeroOrder).id =
                (ua.orders.getD (ua.header.number_of_orders - 1) zeroOrder).id
              rw [getD_set_ne _ zeroOrder (by omega)]
              exact hdist m (ua.header.number_of_orders - 1) (by omega) (by omega)
          · show UserAccount.read_order
                ⟨{ ua.header with number_of_orders := ua.header.number_of_orders - 1 },
                  ua.orders.set i
                    (ua.orders.getD (ua.header.number_of_orders - 1) zeroOrder)⟩ i =
              .ok (ua.orders.getD (ua.header.number_of_orders - 1) zeroOrder)
            rw [read_order_eq hilast]
            rw [getD_set_self _ zeroOrder (by omega)]
        · refine ⟨j, by omega, ?_, ?_⟩
          · refine (find_order_index_eq_ok_iff _ _ _).2 ⟨?_, ?_, ?_⟩
            · show j < (ua.orders.set i
                (ua.orders.getD (ua.header.number_of_orders - 1) zeroOrder)).length
              simp only [List.length_set]
              omega
            · show ((ua.orders.set i
                  (ua.orders.getD (ua.header.number_of_orders - 1) zeroOrder)).getD j
                    zeroOrder).id =
                (ua.orders.getD j zeroOrder).id
              rw [getD_set_ne _ zeroOrder (by omega)]
            · intro m hm
              show ¬((ua.orders.set i
                  (ua.orders.getD (ua.header.number_of_orders - 1) zeroOrder)).getD m
                    zeroOrder).id =
                (ua.orders.getD j zeroOrder).id
              by_cases hmi : m = i
              · subst hmi
                rw [getD_set_self _ zeroOrder (by omega)]
                exact fun hc =>
                  hdist j (ua.header.number_of_orders - 1) (by omega) (by omega) hc.symm
              · rw [getD_set_ne _ zeroOrder (by omega)]
                exact hdist m j (by omega) (by omega)
          · show UserAccount.read_order
                ⟨{ ua.header with number_of_orders := ua.header.number_of_orders - 1 },
                  ua.orders.set i
                    (ua.orders.getD (ua.header.number_of_orders - 1) zeroOrder)⟩ j =
              .ok (ua.orders.getD j zeroOrder)
            rw [read_order_eq (show j < ua.header.number_of_orders - 1 by omega)]
            rw [getD_set_ne _ zeroOrder (by omega)]
      · cases hfi : UserAccount.find_order_index
            ⟨{ ua.header with number_of_orders := ua.header.number_of_orders - 1 },
              ua.orders.set i
                (ua.orders.getD (ua.header.number_of_orders - 1) zeroOrder)⟩
            (ua.orders.getD i zeroOrder).id with
        | error e =>
          left
          rw [((find_order_index_eq_error_iff _ _ _).1 hfi).1]
        | ok k =>
          right
          refine ⟨k, rfl, ?_⟩
          rcases (find_order_index_eq_ok_iff _ _ _).1 hfi with ⟨hk1, hk2, -⟩
          by_contra hklt
          by_cases hki : k = i
          · subst hki
            rw [getD_set_self _ zeroOrder (by omega)] at hk2
            exact hdist k (ua.header.number_of_orders - 1) (by omega) (by omega) hk2.symm
          · rw [getD_set_ne _ zeroOrder (by omega)] at hk2
            rcases Nat.lt_or_ge k i with hik | hik
            · exact hdist k i hik hi hk2
            · exact hdist i k (by omega) (by omega) hk2.symm

/-- C2, witness: removing the only active order of a one-order account. -/
theorem remove_order_spec_witness :
    (exampleAccount.header.number_of_orders ≤ 0 →
      exampleAccount.remove_order 0 = .error .InvalidOrderIndex) ∧
    (0 < exampleAccount.header.number_of_orders →
      ∃ ua', exampleAccount.remove_order 0 = .ok ua' ∧
        ua'.header.number_of_orders = exampleAccount.header.number_of_orders - 1 ∧
        (0 + 1 ≠ exampleAccount.header.number_of_orders →
          ua'.orders = exampleAccount.orders.set 0
            (exampleAccount.orders.getD (exampleAccount.header.number_of_orders - 1)
              zeroOrder)) ∧
        (0 + 1 = exampleAccount.header.number_of_orders →
          ua'.orders = exampleAccount.orders) ∧
        (∀ j, j < exampleAccount.header.number_of_orders → j ≠ 0 →
          ∃ k, k < exampleAccount.header.number_of_orders - 1 ∧
            ua'.find_order_index (exampleAccount.orders.getD j zeroOrder).id = .ok k ∧
            ua'.read_order k = .ok (exampleAccount.orders.getD j zeroOrder)) ∧
        (ua'.find_order_index (exampleAccount.orders.getD 0 zeroOrder).id =
            .error .OrderNotFound ∨
          ∃ k, ua'.find_order_index (exampleAccount.orders.getD 0 zeroOrder).id = .ok k ∧
            exampleAccount.header.number_of_orders - 1 ≤ k)) :=
  remove_order_spec exampleAccount 0 (by decide) (by decide)

/-- C8, witness: adding `⟨1, 2⟩` over a stale slot and finding it again. -/
theorem add_then_find_roundtrip_witness :
    ∃ i, UserAccount.find_order_index
        ⟨{ UserAccountHeader.new 0 0 with number_of_orders := 1 }, [⟨1, 2⟩]⟩ 1 = .ok i ∧
      UserAccount.read_order
        ⟨{ UserAccountHeader.new 0 0 with number_of_orders := 1 }, [⟨1, 2⟩]⟩ i = .ok ⟨1, 2⟩ :=
  add_then_find_roundtrip ⟨UserAccountHeader.new 0 0, [⟨9, 9⟩]⟩ ⟨1, 2⟩
    ⟨{ UserAccountHeader.new 0 0 with number_of_orders := 1 }, [⟨1, 2⟩]⟩ rfl (by decide)

theorem natToLeBytes_length (k x : Nat) : (natToLeBytes k x).length = k := by
  induction k generalizing x with
  | zero => rfl
  | succ k ih => simp [natToLeBytes, ih]

theorem serializeHeader_length (h : UserAccountHeader) : (serializeHeader h).length = 152 := by
  simp [serializeHeader, natToLeBytes_length]

theorem serializeHeader_take8 (h : UserAccountHeader) :
    (serializeHeader h).take 8 = natToLeBytes 8 h.tag := by
  have hx : serializeHeader h = natToLeBytes 8 h.tag ++
      (natToLeBytes 32 h.market ++ (natToLeBytes 32 h.owner ++
        (natToLeBytes 8 h.base_token_free ++ (natToLeBytes 8 h.base_token_locked ++
          (natToLeBytes 8 h.quote_token_free ++ (natToLeBytes 8 h.quote_token_locked ++
            (natToLeBytes 8 h.accumulated_rebates ++
              (natToLeBytes 8 h.accumulated_maker_quote_volume ++
                (natToLeBytes 8 h.accumulated_maker_base_volume ++
                  (natToLeBytes 8 h.accumulated_taker_quote_volume ++
                    (natToLeBytes 8 h.accumulated_taker_base_volume ++
                      (natToLeBytes 4 0 ++ natToLeBytes 4 h.number_of_orders)))))))))))) := by
    simp [serializeHeader, List.append_assoc]
  rw [hx, List.take_left' (natToLeBytes_length 8 h.tag)]

/-- Overlaying the concatenation of a serialised header and whole order
records, in closed form. -/
theorem from_buffer_unchecked_append (h : UserAccountHeader) (ob : List Nat)
    (hmod : ob.length % ORDER_LEN = 0) :
    from_buffer_unchecked (serializeHeader h ++ ob) =
      some ⟨parseHeader (serializeHeader h), parseOrders (ob.length / ORDER_LEN) ob⟩ := by
  have hser := serializeHeader_length h
  unfold from_buffer_unchecked USER_ACCOUNT_HEADER_LEN
  rw [List.take_left' hser, List.drop_left' hser]
  rw [if_neg (by simp [hser])]
  rw [if_neg (by simpa using hmod)]

/-- The tag parsed back from a header serialised by `new` is the
`UserAccount` discriminant. -/
theorem parseHeader_new_tag (market owner : Nat) :
    (parseHeader (serializeHeader (UserAccountHeader.new market owner))).tag =
      AccountTag.UserAccount.toU64 := by
  show leBytesToNat ((serializeHeader (UserAccountHeader.new market owner)).take 8) =
    AccountTag.UserAccount.toU64
  rw [serializeHeader_take8]
  show leBytesToNat (natToLeBytes 8 2) = 2
  rfl

/-- C9: the checked overlay constructors accept a buffer exactly when its tag
field equals the requested type's discriminant: `DexState::get` succeeds iff
`tag = AccountTag::DexState`, failing with `InvalidAccountData` otherwise;
`UserAccount::from_buffer` (whenever the unchecked split itself succeeds)
returns the account iff the buffer's leading 8-byte little-endian tag equals
`AccountTag::UserAccount`, failing with `InvalidAccountData` otherwise; and a
buffer whose header was written by `UserAccountHeader::new`, followed by any
whole number of order records, overlays successfully.  The model is pure, so
neither constructor mutates anything. -/
theorem overlay_tag_check :
    (∀ a : DexState, (DexState.get a = .ok a ↔ a.tag = AccountTag.DexState.toU64) ∧
      (a.tag ≠ AccountTag.DexState.toU64 → DexState.get a = .error .InvalidAccountData)) ∧
    (∀ (buf : List Nat) (ua : UserAccount), from_buffer_unchecked buf = some ua →
      ua.header.tag = leBytesToNat (buf.take 8) ∧
      (from_buffer buf = some (.ok ua) ↔ ua.header.tag = AccountTag.UserAccount.toU64) ∧
      (ua.header.tag ≠ AccountTag.UserAccount.toU64 →
        from_buffer buf = some (.error .InvalidAccountData))) ∧
    (∀ (market owner : Nat) (orderBytes : List Nat),
      orderBytes.length % ORDER_LEN = 0 →
      ∃ ua, from_buffer (serializeHeader (UserAccountHeader.new market owner) ++ orderBytes) =
          some (.ok ua) ∧ ua.header.tag = AccountTag.UserAccount.toU64) := by
  refine ⟨?_, ?_, ?_⟩
  · intro a
    constructor
    · unfold DexState.get
      by_cases h : a.tag = AccountTag.DexState.toU64
      · rw [if_neg (not_not_intro h)]
        simp [h]
      · rw [if_pos h]
        simp [h]
    · intro h
      unfold DexState.get
      rw [if_pos h]
  · intro buf ua hfu
    have h := hfu
    unfold from_buffer_unchecked at h
    by_cases h1 : buf.length < USER_ACCOUNT_HEADER_LEN
    · rw [if_pos h1] at h
      exact Option.noConfusion h
    · rw [if_neg h1] at h
      by_cases h2 : (buf.drop USER_ACCOUNT_HEADER_LEN).length % ORDER_LEN ≠ 0
      · rw [if_pos h2] at h
        exact Option.noConfusion h
      · rw [if_neg h2] at h
        injection h with h
        have htag : ua.header.tag = leBytesToNat (buf.take 8) := by
          rw [← h]
          show leBytesToNat ((buf.take USER_ACCOUNT_HEADER_LEN).take 8) =
            leBytesToNat (buf.take 8)
          rw [List.take_take]
          norm_num [USER_ACCOUNT_HEADER_LEN]
        have hfb : from_buffer buf =
            some (if ua.header.tag ≠ AccountTag.UserAccount.toU64 then
              .error .InvalidAccountData else .ok ua) := by
          unfold from_buffer
          rw [hfu]
          rfl
        refine ⟨htag, ?_, ?_⟩
        · rw [hfb]
          by_cases ht : ua.header.tag = AccountTag.UserAccount.toU64
          · rw [if_neg (not_not_intro ht)]
            simp [ht]
          · rw [if_pos ht]
            simp [ht]
        · intro ht
          rw [hfb, if_pos ht]
  · intro market owner ob hmod
    have hfu := from_buffer_unchecked_append (UserAccountHeader.new market owner) ob hmod
    have htag := parseHeader_new_tag market owner
    refine ⟨⟨parseHeader (serializeHeader (UserAccountHeader.new market owner)),
      parseOrders (ob.length / ORDER_LEN) ob⟩, ?_, htag⟩
    unfold from_buffer
    rw [hfu]
    simp only [Option.map_some']
    rw [if_neg (by simp [htag])]

/-- C9, witness: a freshly serialised header with no order records overlays
successfully. -/
theorem overlay_tag_check_witness :
    ∃ ua, from_buffer (serializeHeader (UserAccountHeader.new 0 0) ++ []) =
        some (.ok ua) ∧ ua.header.tag = AccountTag.UserAccount.toU64 :=
  overlay_tag_check.2.2 0 0 [] rfl

/-- C10: on a buffer shorter than the 152-byte header, or whose tail past the
header is not a whole number of 32-byte order records, both
`from_buffer_unchecked` and `from_buffer` panic (modelled as `none`) instead
of returning a typed error; and whenever `from_buffer` does return an error,
that error is `InvalidAccountData`. -/
theorem from_buffer_bad_length_panics (buf : List Nat) :
    (buf.length < USER_ACCOUNT_HEADER_LEN ∨
        (buf.length - USER_ACCOUNT_HEADER_LEN) % ORDER_LEN ≠ 0 →
      from_buffer_unchecked buf = none ∧ from_buffer buf = none) ∧
    ∀ e, from_buffer buf = some (.error e) → e = .InvalidAccountData := by
  constructor
  · intro h
    have hfu : from_buffer_unchecked buf = none := by
      unfold from_buffer_unchecked
      by_cases h1 : buf.length < USER_ACCOUNT_HEADER_LEN
      · rw [if_pos h1]
      · rw [if_neg h1]
        rw [if_pos (by simpa [List.length_drop] using h.resolve_left h1)]
    exact ⟨hfu, by simp [from_buffer, hfu]⟩
  · intro e h
    unfold from_buffer at h
    cases hfu : from_buffer_unchecked buf with
    | none =>
      rw [hfu] at h
      exact Option.noConfusion h
    | some ua =>
      rw [hfu] at h
      simp only [Option.map_some', Option.some.injEq] at h
      by_cases ht : ua.header.tag ≠ AccountTag.UserAccount.toU64
      · rw [if_pos ht] at h
        injection h with h
        exact h.symm
      · rw [if_neg ht] at h
        exact Except.noConfusion h

/-- C10, witness: a 1-byte buffer makes both constructors panic. -/
theorem from_buffer_bad_length_panics_witness :
    from_buffer_unchecked [0] = none ∧ from_buffer [0] = none :=
  (from_buffer_bad_length_panics [0]).1 (Or.inl (by decide))

end DexV4
